import Mathlib

/-!
A shallow embedding of the core of the `dm-helper` character-creation service
(Go packages `abilities`, `condition`, `inventory`, `character`), together with
theorems settling the behavioural claims about it.

Go `int` is modelled as `Int`; Go methods that mutate their receiver are
modelled as functions returning the new state, and a fallible method returns
`Except E State`, with the convention that an `error` result means the Go
receiver was left unchanged (which we check against the source: every error
return in the Go code happens before any field mutation, except for
`ChangeItem`, which is modelled with its partial mutations made explicit).
Each error constructor corresponds to one `fmt.Errorf` return site of the
source; the error's payload keeps the data interpolated into the message.
-/

namespace DmHelper

/-! ## Package `abilities` -/

abbrev MinAbilityValue : Int := 1
abbrev MaxAbilityValue : Int := 10
abbrev DefaultAbilityValue : Int := 5
abbrev AbilityPointBudget : Int := 5

structure Abilities where
  pointsPool   : Int
  strength     : Int
  luck         : Int
  charisma     : Int
  agility      : Int
  perception   : Int
  intelligence : Int
deriving DecidableEq, Repr

/-- One constructor per error-return site of the `abilities` package. -/
inductive AbilitiesError where
  | outOfRange (name : String) (value : Int)
  | badTotal (total : Int)
  | belowMin (name : String)
  | aboveMax (name : String)
  | insufficientPoints (need pool : Int)
  | unknownAbility (name : String)
deriving DecidableEq, Repr

/-- `NewDefaultAbilities`: all defaults, full budget in the pool. -/
def NewDefaultAbilities : Abilities where
  pointsPool := AbilityPointBudget
  strength := DefaultAbilityValue
  luck := DefaultAbilityValue
  charisma := DefaultAbilityValue
  agility := DefaultAbilityValue
  perception := DefaultAbilityValue
  intelligence := DefaultAbilityValue

/-- The range-validation loop at the top of `NewAbilities`
(`for _, ability := range abilities`), returning the first failure. -/
def checkRange : List (String × Int) → Option AbilitiesError
  | [] => none
  | (n, v) :: rest =>
    if v < MinAbilityValue ∨ v > MaxAbilityValue then some (.outOfRange n v)
    else checkRange rest

/-- `NewAbilities`: the validated constructor. -/
def NewAbilities (strength luck charisma agility perception intelligence : Int) :
    Except AbilitiesError Abilities :=
  let abilitiesList : List (String × Int) :=
    [("strength", strength), ("luck", luck), ("charisma", charisma),
     ("agility", agility), ("perception", perception), ("intelligence", intelligence)]
  match checkRange abilitiesList with
  | some e => Except.error e
  | none =>
    let totalAbilitySum := strength + luck + charisma + agility + perception + intelligence
    let expectedSum := 6 * DefaultAbilityValue + AbilityPointBudget
    if totalAbilitySum ≠ expectedSum then
      Except.error (.badTotal totalAbilitySum)
    else
      let pointsSpent := (strength - DefaultAbilityValue) + (luck - DefaultAbilityValue) +
        (charisma - DefaultAbilityValue) + (agility - DefaultAbilityValue) +
        (perception - DefaultAbilityValue) + (intelligence - DefaultAbilityValue)
      let remainingPoints := AbilityPointBudget - pointsSpent
      Except.ok
        { pointsPool := remainingPoints
          strength := strength
          luck := luck
          charisma := charisma
          agility := agility
          perception := perception
          intelligence := intelligence }

/-- `checkRange` on the literal six-entry list accepts exactly the in-range tuples. -/
theorem checkRange_none_iff (s l c a p i : Int) :
    checkRange [("strength", s), ("luck", l), ("charisma", c), ("agility", a),
      ("perception", p), ("intelligence", i)] = none ↔
      ((1 ≤ s ∧ s ≤ 10) ∧ (1 ≤ l ∧ l ≤ 10) ∧ (1 ≤ c ∧ c ≤ 10) ∧ (1 ≤ a ∧ a ≤ 10) ∧
       (1 ≤ p ∧ p ≤ 10) ∧ (1 ≤ i ∧ i ≤ 10)) := by
  simp only [checkRange, MinAbilityValue, MaxAbilityValue]
  split_ifs <;> simp <;> omega

/-- C1: `NewAbilities` succeeds exactly when every value is in `[1,10]` and the six
values sum to 35, and on success the returned `pointsPool` is
`5 - Σ (value_i - 5)`. -/
theorem NewAbilities_spec (s l c a p i : Int) :
    ((∃ ab, NewAbilities s l c a p i = Except.ok ab) ↔
      ((1 ≤ s ∧ s ≤ 10) ∧ (1 ≤ l ∧ l ≤ 10) ∧ (1 ≤ c ∧ c ≤ 10) ∧ (1 ≤ a ∧ a ≤ 10) ∧
       (1 ≤ p ∧ p ≤ 10) ∧ (1 ≤ i ∧ i ≤ 10) ∧ s + l + c + a + p + i = 35)) ∧
    (∀ ab, NewAbilities s l c a p i = Except.ok ab →
      ab.pointsPool = 5 - ((s - 5) + (l - 5) + (c - 5) + (a - 5) + (p - 5) + (i - 5))) := by
  have hcr := checkRange_none_iff s l c a p i
  simp only [NewAbilities]
  cases hc : checkRange [("strength", s), ("luck", l), ("charisma", c), ("agility", a),
      ("perception", p), ("intelligence", i)] with
  | some e =>
    rw [hc] at hcr
    simp only [reduceCtorEq, false_iff] at hcr
    refine ⟨⟨?_, ?_⟩, ?_⟩
    · rintro ⟨ab, hab⟩
      simp at hab
    · intro hr
      exact absurd ⟨hr.1, hr.2.1, hr.2.2.1, hr.2.2.2.1, hr.2.2.2.2.1, hr.2.2.2.2.2.1⟩ hcr
    · intro ab hab
      simp at hab
  | none =>
    rw [hc] at hcr
    simp only [true_iff] at hcr
    split_ifs with hsum
    · refine ⟨⟨?_, ?_⟩, ?_⟩
      · rintro ⟨ab, hab⟩
        simp at hab
      · intro hr
        exact absurd hr.2.2.2.2.2.2
          (by simp only [DefaultAbilityValue, AbilityPointBudget] at hsum; omega)
      · intro ab hab
        simp at hab
    · simp only [DefaultAbilityValue, AbilityPointBudget] at hsum
      refine ⟨⟨fun _ => ?_, fun _ => ⟨_, rfl⟩⟩, ?_⟩
      · exact ⟨hcr.1, hcr.2.1, hcr.2.2.1, hcr.2.2.2.1, hcr.2.2.2.2.1, hcr.2.2.2.2.2, by omega⟩
      · intro ab hab
        simp only [Except.ok.injEq] at hab
        subst hab
        simp only [DefaultAbilityValue, AbilityPointBudget]

/-- C1 witness: the spec's example tuple (7,5,5,5,5,8) is accepted. -/
theorem NewAbilities_spec_witness : ∃ ab, NewAbilities 7 5 5 5 5 8 = Except.ok ab :=
  (NewAbilities_spec 7 5 5 5 5 8).1.mpr (by norm_num)

/-- C10: whenever `NewAbilities` succeeds, the returned `pointsPool` is exactly 0:
the sum check forces the six values to total 35, so the spent points are exactly
the budget of 5. -/
theorem NewAbilities_pointsPool_zero (s l c a p i : Int) (ab : Abilities)
    (h : NewAbilities s l c a p i = Except.ok ab) : ab.pointsPool = 0 := by
  obtain ⟨hr, hpool⟩ := NewAbilities_spec s l c a p i
  have hsum := (hr.mp ⟨ab, h⟩).2.2.2.2.2.2
  have := hpool ab h
  omega

/-- C10 witness: the accepted tuple (7,5,5,5,5,8) yields pool 0. -/
theorem NewAbilities_pointsPool_zero_witness :
    (Abilities.mk 0 7 5 5 5 5 8).pointsPool = 0 :=
  NewAbilities_pointsPool_zero 7 5 5 5 5 8 (Abilities.mk 0 7 5 5 5 5 8) (by rfl)

/-- The names the `switch abilityName` statements of `AddToAbility` and `SetAbility`
recognize. -/
def knownAbilityNames : List String :=
  ["strength", "luck", "charisma", "agility", "perception", "intelligence"]

/-- The `getCurrentValue` closure shared by `AddToAbility` and `SetAbility`:
an unrecognized name reads as 0. -/
def getCurrentValue (a : Abilities) (abilityName : String) : Int :=
  match abilityName with
  | "strength" => a.strength
  | "luck" => a.luck
  | "charisma" => a.charisma
  | "agility" => a.agility
  | "perception" => a.perception
  | "intelligence" => a.intelligence
  | _ => 0

/-- The update `switch` shared by `AddToAbility` and `SetAbility`; `none` is the
`default` branch returning the unknown-ability error. -/
def updateAbilityField (a : Abilities) (abilityName : String) (newValue : Int) :
    Option Abilities :=
  match abilityName with
  | "strength" => some { a with strength := newValue }
  | "luck" => some { a with luck := newValue }
  | "charisma" => some { a with charisma := newValue }
  | "agility" => some { a with agility := newValue }
  | "perception" => some { a with perception := newValue }
  | "intelligence" => some { a with intelligence := newValue }
  | _ => none

/-- `AddToAbility`: relative adjustment with range and budget checks.
On `Except.error` the Go receiver is unchanged. -/
def AddToAbility (a : Abilities) (abilityName : String) (value : Int) :
    Except AbilitiesError Abilities :=
  let currentValue := getCurrentValue a abilityName
  let newValue := currentValue + value
  if newValue < MinAbilityValue then Except.error (.belowMin abilityName)
  else if newValue > MaxAbilityValue then Except.error (.aboveMax abilityName)
  else
    let currentCost := currentValue - DefaultAbilityValue
    let newCost := newValue - DefaultAbilityValue
    let pointDelta := newCost - currentCost
    if pointDelta > 0 ∧ a.pointsPool < pointDelta then
      Except.error (.insufficientPoints pointDelta a.pointsPool)
    else
      match updateAbilityField a abilityName newValue with
      | some a2 => Except.ok { a2 with pointsPool := a2.pointsPool - pointDelta }
      | none => Except.error (.unknownAbility abilityName)

/-- `SetAbility`: absolute assignment with range and budget checks.
On `Except.error` the Go receiver is unchanged. -/
def SetAbility (a : Abilities) (abilityName : String) (value : Int) :
    Except AbilitiesError Abilities :=
  if value < MinAbilityValue then Except.error (.belowMin abilityName)
  else if value > MaxAbilityValue then Except.error (.aboveMax abilityName)
  else
    let currentValue := getCurrentValue a abilityName
    let currentCost := currentValue - DefaultAbilityValue
    let newCost := value - DefaultAbilityValue
    let pointDelta := newCost - currentCost
    if pointDelta > 0 ∧ a.pointsPool < pointDelta then
      Except.error (.insufficientPoints pointDelta a.pointsPool)
    else
      match updateAbilityField a abilityName value with
      | some a2 => Except.ok { a2 with pointsPool := a2.pointsPool - pointDelta }
      | none => Except.error (.unknownAbility abilityName)

/-- For an unrecognized name the shared read closure returns 0. -/
theorem getCurrentValue_unknown (a : Abilities) (name : String)
    (h : name ∉ knownAbilityNames) : getCurrentValue a name = 0 := by
  simp only [knownAbilityNames, List.mem_cons, List.not_mem_nil, or_false] at h
  push_neg at h
  obtain ⟨h1, h2, h3, h4, h5, h6⟩ := h
  unfold getCurrentValue
  split <;> simp_all

/-- For an unrecognized name the update switch hits its default branch. -/
theorem updateAbilityField_unknown (a : Abilities) (name : String) (v : Int)
    (h : name ∉ knownAbilityNames) : updateAbilityField a name v = none := by
  simp only [knownAbilityNames, List.mem_cons, List.not_mem_nil, or_false] at h
  push_neg at h
  obtain ⟨h1, h2, h3, h4, h5, h6⟩ := h
  unfold updateAbilityField
  split <;> simp_all

/-- C2 counterexample: with the unrecognized name "foo" and delta 0, `AddToAbility`
fails with the below-minimum range error (the unknown attribute reads as 0, so the
range check fires first), not with the unknown-ability error the claim requires. -/
theorem AddToAbility_unknown_cex :
    "foo" ∉ knownAbilityNames ∧
    AddToAbility (Abilities.mk 5 5 5 5 5 5 5) "foo" 0 =
      Except.error (AbilitiesError.belowMin "foo") := by
  constructor
  · decide
  · rfl

/-- C2 amended: for an unrecognized attribute name, `AddToAbility` always fails,
but the error is the unknown-ability error exactly when the delta lies in `[1,10]`
and does not exceed the current pool; otherwise a range or insufficient-points
error fires first (the unrecognized attribute reads as current value 0). -/
theorem AddToAbility_unknown_spec (a : Abilities) (name : String) (d : Int)
    (h : name ∉ knownAbilityNames) :
    (∃ e, AddToAbility a name d = Except.error e) ∧
    (AddToAbility a name d = Except.error (AbilitiesError.unknownAbility name) ↔
      (1 ≤ d ∧ d ≤ 10 ∧ d ≤ a.pointsPool)) := by
  have hg := getCurrentValue_unknown a name h
  have hu := updateAbilityField_unknown a name (0 + d) h
  simp only [AddToAbility, hg, MinAbilityValue, MaxAbilityValue, DefaultAbilityValue]
  split_ifs with h1 h2 h3
  · exact ⟨⟨_, rfl⟩, by constructor <;> intro h' <;> [simp at h'; omega]⟩
  · exact ⟨⟨_, rfl⟩, by constructor <;> intro h' <;> [simp at h'; omega]⟩
  · exact ⟨⟨_, rfl⟩, by constructor <;> intro h' <;> [simp at h'; omega]⟩
  · rw [hu]
    exact ⟨⟨_, rfl⟩, by constructor <;> intro h' <;> [omega; rfl]⟩

/-- C2 amended witness: at the default state with unknown name "bar" and delta 2,
`AddToAbility` fails, and fails with the unknown-ability error since 2 is in range
and within the pool of 5. -/
theorem AddToAbility_unknown_spec_witness :
    (∃ e, AddToAbility (Abilities.mk 5 5 5 5 5 5 5) "bar" 2 = Except.error e) ∧
    (AddToAbility (Abilities.mk 5 5 5 5 5 5 5) "bar" 2 =
        Except.error (AbilitiesError.unknownAbility "bar") ↔
      (1 ≤ (2 : Int) ∧ (2 : Int) ≤ 10 ∧ (2 : Int) ≤ (Abilities.mk 5 5 5 5 5 5 5).pointsPool)) :=
  AddToAbility_unknown_spec (Abilities.mk 5 5 5 5 5 5 5) "bar" 2 (by decide)

/-- The spec's data-model invariant for `Abilities`: every attribute in `[1,10]`
and a nonnegative pool. -/
def abilitiesInvariant (a : Abilities) : Prop :=
  (MinAbilityValue ≤ a.strength ∧ a.strength ≤ MaxAbilityValue) ∧
  (MinAbilityValue ≤ a.luck ∧ a.luck ≤ MaxAbilityValue) ∧
  (MinAbilityValue ≤ a.charisma ∧ a.charisma ≤ MaxAbilityValue) ∧
  (MinAbilityValue ≤ a.agility ∧ a.agility ≤ MaxAbilityValue) ∧
  (MinAbilityValue ≤ a.perception ∧ a.perception ≤ MaxAbilityValue) ∧
  (MinAbilityValue ≤ a.intelligence ∧ a.intelligence ≤ MaxAbilityValue) ∧
  0 ≤ a.pointsPool

instance (a : Abilities) : Decidable (abilitiesInvariant a) := by
  unfold abilitiesInvariant
  exact inferInstance

/-- The state of the Go receiver after a fallible mutation: the new state on
success, the old state on error (every error return of `AddToAbility` and
`SetAbility` happens before any field assignment). -/
def afterCall (a : Abilities) (r : Except AbilitiesError Abilities) : Abilities :=
  match r with
  | Except.ok a2 => a2
  | Except.error _ => a

/-- A successful `AddToAbility` lands in an invariant-satisfying state. -/
theorem AddToAbility_ok_invariant (a : Abilities) (name : String) (v : Int)
    (a2 : Abilities) (h : abilitiesInvariant a)
    (hok : AddToAbility a name v = Except.ok a2) : abilitiesInvariant a2 := by
  by_cases hn : name ∈ knownAbilityNames
  · simp only [knownAbilityNames, List.mem_cons, List.not_mem_nil, or_false] at hn
    unfold abilitiesInvariant at h ⊢
    rcases hn with rfl | rfl | rfl | rfl | rfl | rfl <;>
    · simp only [AddToAbility, getCurrentValue, updateAbilityField] at hok
      split_ifs at hok with h1 h2 h3
      simp at hok
      subst hok
      simp_all
      omega
  · have hu := updateAbilityField_unknown a name (getCurrentValue a name + v) hn
    simp only [AddToAbility] at hok
    split_ifs at hok
    rw [hu] at hok
    exact absurd hok (by simp)

/-- A successful `SetAbility` lands in an invariant-satisfying state. -/
theorem SetAbility_ok_invariant (a : Abilities) (name : String) (v : Int)
    (a2 : Abilities) (h : abilitiesInvariant a)
    (hok : SetAbility a name v = Except.ok a2) : abilitiesInvariant a2 := by
  by_cases hn : name ∈ knownAbilityNames
  · simp only [knownAbilityNames, List.mem_cons, List.not_mem_nil, or_false] at hn
    unfold abilitiesInvariant at h ⊢
    rcases hn with rfl | rfl | rfl | rfl | rfl | rfl <;>
    · simp only [SetAbility, getCurrentValue, updateAbilityField] at hok
      split_ifs at hok with h1 h2 h3
      simp at hok
      subst hok
      simp_all
      omega
  · have hu := updateAbilityField_unknown a name v hn
    simp only [SetAbility] at hok
    split_ifs at hok
    rw [hu] at hok
    exact absurd hok (by simp)

/-- C3: from any state with all six attributes in `[1,10]` and a nonnegative pool,
`AddToAbility` and `SetAbility` — whether they succeed or fail — leave every
attribute in `[1,10]` and the pool nonnegative. -/
theorem adjust_set_preserve_invariant (a : Abilities) (name : String) (v : Int)
    (h : abilitiesInvariant a) :
    abilitiesInvariant (afterCall a (AddToAbility a name v)) ∧
    abilitiesInvariant (afterCall a (SetAbility a name v)) := by
  constructor
  · cases hr : AddToAbility a name v with
    | ok a2 => simpa [afterCall] using AddToAbility_ok_invariant a name v a2 h hr
    | error e => simpa [afterCall] using h
  · cases hr : SetAbility a name v with
    | ok a2 => simpa [afterCall] using SetAbility_ok_invariant a name v a2 h hr
    | error e => simpa [afterCall] using h

/-- C3 witness: the invariant holds after adjusting strength by +1 and after
setting strength to 9 from the default state. -/
theorem adjust_set_preserve_invariant_witness :
    abilitiesInvariant (afterCall NewDefaultAbilities
      (AddToAbility NewDefaultAbilities "strength" 1)) ∧
    abilitiesInvariant (afterCall NewDefaultAbilities
      (SetAbility NewDefaultAbilities "strength" 1)) :=
  adjust_set_preserve_invariant NewDefaultAbilities "strength" 1 (by decide)

/-- C4: if an adjustment by `+d` on a recognized attribute succeeds and the
adjustment by `-d` on the same attribute then succeeds, the attribute and the
points pool are back at their original values. -/
theorem adjust_round_trip (a a2 a3 : Abilities) (name : String) (d : Int)
    (hname : name ∈ knownAbilityNames)
    (h1 : AddToAbility a name d = Except.ok a2)
    (h2 : AddToAbility a2 name (-d) = Except.ok a3) :
    getCurrentValue a3 name = getCurrentValue a name ∧ a3.pointsPool = a.pointsPool := by
  simp only [knownAbilityNames, List.mem_cons, List.not_mem_nil, or_false] at hname
  rcases hname with rfl | rfl | rfl | rfl | rfl | rfl <;>
  · simp only [AddToAbility, getCurrentValue, updateAbilityField, MinAbilityValue,
      MaxAbilityValue, DefaultAbilityValue] at h1
    split_ifs at h1 <;> simp only [Except.ok.injEq, reduceCtorEq] at h1
    subst h1
    simp only [AddToAbility, getCurrentValue, updateAbilityField, MinAbilityValue,
      MaxAbilityValue, DefaultAbilityValue] at h2
    split_ifs at h2 <;> simp only [Except.ok.injEq, reduceCtorEq] at h2
    subst h2
    refine ⟨?_, ?_⟩ <;> simp [getCurrentValue] <;> omega

/-- C4 witness: from the default state, +2 then -2 on strength restores both the
attribute and the pool. -/
theorem adjust_round_trip_witness :
    getCurrentValue (Abilities.mk 5 5 5 5 5 5 5) "strength" =
        getCurrentValue NewDefaultAbilities "strength" ∧
    (Abilities.mk 5 5 5 5 5 5 5).pointsPool = NewDefaultAbilities.pointsPool :=
  adjust_round_trip NewDefaultAbilities (Abilities.mk 3 7 5 5 5 5 5)
    (Abilities.mk 5 5 5 5 5 5 5) "strength" 2 (by decide) (by rfl) (by rfl)

/-! ## Package `condition`: a string wrapper, uninterpreted. -/

structure Condition where
  str : String
deriving DecidableEq, Repr

/-- `NewCondition`. -/
def NewCondition (cond : String) : Condition := ⟨cond⟩

/-- The `String()` method of `Condition`. -/
def Condition.toStr (c : Condition) : String := c.str

/-! ## Package `inventory` -/

/-- `Item`; the `*abilities.Abilities` pointer field is `none` when nil. -/
structure Item where
  Name        : String
  quantity    : Int
  abilities   : Option Abilities
  condition   : Condition
  description : String
deriving DecidableEq, Repr

structure Inventory where
  Items : List Item
deriving DecidableEq, Repr

/-- `NewInventory`. -/
def NewInventory : Inventory := ⟨[]⟩

/-- One constructor per error-return site of `RemoveItem`. -/
inductive InventoryError where
  | insufficientQuantity (haveQ needQ : Int)
  | notFound (name : String)
deriving DecidableEq, Repr

/-- The loop of `AddItem`: stack into the first entry with equal name and
condition, else append at the end. -/
def addItemList : List Item → Item → List Item
  | [], item => [item]
  | it :: rest, item =>
    if it.Name = item.Name ∧ it.condition = item.condition then
      { it with quantity := it.quantity + item.quantity } :: rest
    else
      it :: addItemList rest item

/-- `AddItem`: the method on `Inventory`. -/
def AddItem (inv : Inventory) (item : Item) : Inventory := ⟨addItemList inv.Items item⟩

/-- Whether an inventory entry stacks with `item` (same name and condition). -/
def stacksWith (item it : Item) : Prop :=
  it.Name = item.Name ∧ it.condition = item.condition

instance (item it : Item) : Decidable (stacksWith item it) := by
  unfold stacksWith
  exact inferInstance

/-- `AddItem` when nothing stacks: the item is appended, order preserved. -/
theorem addItemList_append (l : List Item) (item : Item)
    (h : ∀ it ∈ l, ¬stacksWith item it) : addItemList l item = l ++ [item] := by
  induction l with
  | nil => rfl
  | cons x rest ih =>
    have hx : ¬stacksWith item x := h x (List.mem_cons_self x rest)
    have hrest := ih fun it hit => h it (List.mem_cons_of_mem x hit)
    unfold stacksWith at hx
    simp only [addItemList]
    rw [if_neg hx]
    simp [hrest]

/-- `AddItem` when something stacks: the first stacking entry absorbs the
quantity in place; nothing is appended. -/
theorem addItemList_stack (l : List Item) (item : Item)
    (h : ∃ it ∈ l, stacksWith item it) :
    ∃ l1 it l2, l = l1 ++ it :: l2 ∧ (∀ x ∈ l1, ¬stacksWith item x) ∧ stacksWith item it ∧
      addItemList l item = l1 ++ { it with quantity := it.quantity + item.quantity } :: l2 := by
  induction l with
  | nil => simp at h
  | cons x rest ih =>
    by_cases hx : stacksWith item x
    · refine ⟨[], x, rest, by simp, by simp, hx, ?_⟩
      have hx2 := hx
      unfold stacksWith at hx2
      simp only [addItemList]
      rw [if_pos hx2]
      simp
    · obtain ⟨it, hit, hst⟩ := h
      rcases List.mem_cons.mp hit with rfl | hmem
      · exact absurd hst hx
      · obtain ⟨l1, it2, l2, heq, hl1, hst2, hres⟩ := ih ⟨it, hmem, hst⟩
        refine ⟨x :: l1, it2, l2, by simp [heq], ?_, hst2, ?_⟩
        · intro y hy
          rcases List.mem_cons.mp hy with rfl | hy2
          · exact hx
          · exact hl1 y hy2
        · have hx2 := hx
          unfold stacksWith at hx2
          simp only [addItemList]
          rw [if_neg hx2, hres]
          simp

/-- C5: `AddItem` merges into the first existing entry with the same
(name, condition), adding the quantities and keeping one entry (the list keeps
its length); when no entry matches, the item is appended at the end, preserving
the order of existing entries. -/
theorem AddItem_spec (inv : Inventory) (item : Item) :
    ((∀ it ∈ inv.Items, ¬stacksWith item it) →
      (AddItem inv item).Items = inv.Items ++ [item]) ∧
    ((∃ it ∈ inv.Items, stacksWith item it) →
      ∃ l1 it l2, inv.Items = l1 ++ it :: l2 ∧
        (∀ x ∈ l1, ¬stacksWith item x) ∧ stacksWith item it ∧
        (AddItem inv item).Items =
          l1 ++ { it with quantity := it.quantity + item.quantity } :: l2 ∧
        (AddItem inv item).Items.length = inv.Items.length) := by
  constructor
  · intro h
    exact addItemList_append inv.Items item h
  · intro h
    obtain ⟨l1, it, l2, heq, hl1, hst, hres⟩ := addItemList_stack inv.Items item h
    refine ⟨l1, it, l2, heq, hl1, hst, hres, ?_⟩
    show (AddItem inv item).Items.length = inv.Items.length
    simp only [AddItem]
    rw [hres, heq]
    simp

/-- C5 witness: adding a stacking "Sword" merges quantities into one entry, and
adding to an empty inventory appends. -/
theorem AddItem_spec_witness :
    ((∀ it ∈ (Inventory.mk []).Items,
        ¬stacksWith (Item.mk "Sword" 1 none (NewCondition "New") "") it) →
      (AddItem (Inventory.mk []) (Item.mk "Sword" 1 none (NewCondition "New") "")).Items =
        (Inventory.mk []).Items ++ [Item.mk "Sword" 1 none (NewCondition "New") ""]) ∧
    ((∃ it ∈ (Inventory.mk []).Items,
        stacksWith (Item.mk "Sword" 1 none (NewCondition "New") "") it) →
      ∃ l1 it l2, (Inventory.mk []).Items = l1 ++ it :: l2 ∧
        (∀ x ∈ l1, ¬stacksWith (Item.mk "Sword" 1 none (NewCondition "New") "") x) ∧
        stacksWith (Item.mk "Sword" 1 none (NewCondition "New") "") it ∧
        (AddItem (Inventory.mk [])
            (Item.mk "Sword" 1 none (NewCondition "New") "")).Items =
          l1 ++ { it with quantity := it.quantity + 1 } :: l2 ∧
        (AddItem (Inventory.mk [])
            (Item.mk "Sword" 1 none (NewCondition "New") "")).Items.length =
          (Inventory.mk []).Items.length) :=
  AddItem_spec (Inventory.mk []) (Item.mk "Sword" 1 none (NewCondition "New") "")

/-- The loop of `RemoveItem`: the first entry with the matching name decides the
outcome; the error returns happen before any mutation. In Go the quantity is
decremented and the entry spliced out when the result is exactly 0. -/
def removeItemList : List Item → String → Int → Except InventoryError (List Item)
  | [], name, _ => Except.error (.notFound name)
  | it :: rest, name, quantity =>
    if it.Name = name then
      if it.quantity < quantity then
        Except.error (.insufficientQuantity it.quantity quantity)
      else if it.quantity - quantity = 0 then Except.ok rest
      else Except.ok ({ it with quantity := it.quantity - quantity } :: rest)
    else
      match removeItemList rest name quantity with
      | Except.ok rest2 => Except.ok (it :: rest2)
      | Except.error e => Except.error e

/-- `RemoveItem`: the method on `Inventory`. -/
def RemoveItem (inv : Inventory) (name : String) (quantity : Int) :
    Except InventoryError Inventory :=
  match removeItemList inv.Items name quantity with
  | Except.ok items => Except.ok ⟨items⟩
  | Except.error e => Except.error e

/-- `removeItemList` on a list without the name reports not-found. -/
theorem removeItemList_notFound (l : List Item) (name : String) (q : Int)
    (h : ∀ it ∈ l, it.Name ≠ name) :
    removeItemList l name q = Except.error (.notFound name) := by
  induction l with
  | nil => rfl
  | cons x rest ih =>
    have hx : x.Name ≠ name := h x (List.mem_cons_self x rest)
    have hrest := ih fun it hit => h it (List.mem_cons_of_mem x hit)
    simp only [removeItemList]
    rw [if_neg hx, hrest]

/-- `removeItemList` at the first entry carrying the name: insufficient quantity
errors out, removing everything deletes the entry, otherwise the quantity drops
by the requested amount in place. -/
theorem removeItemList_found (l1 : List Item) (it : Item) (l2 : List Item)
    (name : String) (q : Int) (hl1 : ∀ x ∈ l1, x.Name ≠ name) (hn : it.Name = name) :
    removeItemList (l1 ++ it :: l2) name q =
      if it.quantity < q then Except.error (.insufficientQuantity it.quantity q)
      else if it.quantity - q = 0 then Except.ok (l1 ++ l2)
      else Except.ok (l1 ++ { it with quantity := it.quantity - q } :: l2) := by
  induction l1 with
  | nil =>
    simp only [List.nil_append, removeItemList]
    rw [if_pos hn]
  | cons x rest ih =>
    have hx : x.Name ≠ name := hl1 x (List.mem_cons_self x rest)
    have hrest := ih fun y hy => hl1 y (List.mem_cons_of_mem x hy)
    simp only [List.cons_append, removeItemList, List.append_eq]
    rw [if_neg hx, hrest]
    split_ifs <;> simp

/-- C6: `RemoveItem` reports not-found when no entry carries the name; at the
first entry carrying the name it reports insufficient-quantity (and, per the
`Except` convention, the Go inventory is untouched: the error returns precede
the mutation) when the entry holds less than requested; otherwise it decrements
that entry by exactly the requested amount, deleting the entry when its quantity
reaches exactly zero. -/
theorem RemoveItem_spec (inv : Inventory) (name : String) (q : Int) :
    ((∀ it ∈ inv.Items, it.Name ≠ name) →
      RemoveItem inv name q = Except.error (.notFound name)) ∧
    (∀ l1 it l2, inv.Items = l1 ++ it :: l2 → (∀ x ∈ l1, x.Name ≠ name) →
      it.Name = name →
      (it.quantity < q →
        RemoveItem inv name q = Except.error (.insufficientQuantity it.quantity q)) ∧
      (¬it.quantity < q → it.quantity - q = 0 →
        RemoveItem inv name q = Except.ok ⟨l1 ++ l2⟩) ∧
      (¬it.quantity < q → it.quantity - q ≠ 0 →
        RemoveItem inv name q =
          Except.ok ⟨l1 ++ { it with quantity := it.quantity - q } :: l2⟩)) := by
  constructor
  · intro h
    simp only [RemoveItem]
    rw [removeItemList_notFound inv.Items name q h]
  · intro l1 it l2 heq hl1 hn
    have hfound := removeItemList_found l1 it l2 name q hl1 hn
    refine ⟨?_, ?_, ?_⟩
    · intro hlt
      simp only [RemoveItem, heq]
      rw [hfound, if_pos hlt]
    · intro hge hzero
      simp only [RemoveItem, heq]
      rw [hfound, if_neg hge, if_pos hzero]
    · intro hge hnz
      simp only [RemoveItem, heq]
      rw [hfound, if_neg hge, if_neg hnz]

/-- C6 witness: removing 1 of 3 "Rope" decrements in place; removing a missing
name is not-found; removing all of it deletes the entry. -/
theorem RemoveItem_spec_witness :
    RemoveItem (Inventory.mk [Item.mk "Rope" 3 none (NewCondition "New") ""]) "Rope" 1 =
      Except.ok ⟨[] ++
        { Item.mk "Rope" 3 none (NewCondition "New") "" with quantity := (3 : Int) - 1 } ::
          []⟩ ∧
    RemoveItem (Inventory.mk [Item.mk "Rope" 3 none (NewCondition "New") ""]) "Axe" 1 =
      Except.error (.notFound "Axe") := by
  constructor
  · exact ((RemoveItem_spec (Inventory.mk [Item.mk "Rope" 3 none (NewCondition "New") ""])
      "Rope" 1).2 [] (Item.mk "Rope" 3 none (NewCondition "New") "") [] rfl
      (by simp) rfl).2.2 (by norm_num) (by norm_num)
  · exact (RemoveItem_spec (Inventory.mk [Item.mk "Rope" 3 none (NewCondition "New") ""])
      "Axe" 1).1 (by simp)

/-- The runtime type of the Go `any` value passed to `ChangeItem`, one
constructor per type the `switch`'s type assertions test for; a nil
`*abilities.Abilities` is `vAbilitiesPtr none`. -/
inductive GoValue where
  | vString (s : String)
  | vInt (n : Int)
  | vCondition (c : Condition)
  | vAbilitiesPtr (a : Option Abilities)
deriving DecidableEq, Repr

/-- The field names `ChangeItem`'s `switch field` recognizes. -/
def knownItemFields : List String :=
  ["name", "quantity", "condition", "description", "abilities"]

/-- One arm of `ChangeItem`'s `switch field`: `none` is the `default` branch
(unknown field, abort); a recognized field applies the value when the type
assertion succeeds and silently keeps the item otherwise. -/
def applyField (item : Item) (field : String) (newVal : GoValue) : Option Item :=
  match field with
  | "name" =>
    some (match newVal with
      | .vString s => { item with Name := s }
      | _ => item)
  | "quantity" =>
    some (match newVal with
      | .vInt n => { item with quantity := n }
      | _ => item)
  | "condition" =>
    some (match newVal with
      | .vCondition c => { item with condition := c }
      | _ => item)
  | "description" =>
    some (match newVal with
      | .vString s => { item with description := s }
      | _ => item)
  | "abilities" =>
    some (match newVal with
      | .vAbilitiesPtr a => { item with abilities := a }
      | _ => item)
  | _ => none

/-- The `for _, field := range fields` loop of `ChangeItem`. The `Bool` is
whether the loop ran to completion; on `false` (unknown field) the item keeps
the mutations applied before the abort, as the Go code mutates through a
pointer into the inventory. -/
def changeItemLoop : Item → List String → GoValue → Item × Bool
  | item, [], _ => (item, true)
  | item, f :: fs, v =>
    match applyField item f v with
    | some item2 => changeItemLoop item2 fs v
    | none => (item, false)

/-- `ChangeItem` acting on the item list: the first entry with the matching
name (as found by `GetItem`) is processed in place. -/
def changeItemList : List Item → String → List String → GoValue → List Item × Option Item
  | [], _, _, _ => ([], none)
  | it :: rest, name, fields, v =>
    if it.Name = name then
      let r := changeItemLoop it fields v
      (r.1 :: rest, if r.2 then some r.1 else none)
    else
      let r := changeItemList rest name fields v
      (it :: r.1, r.2)

/-- `ChangeItem`: returns the updated inventory together with the Go return
value (`some` = pointer to the updated item, `none` = nil). The leading
empty-inventory early return of the Go code is kept. -/
def ChangeItem (inv : Inventory) (name : String) (fields : List String) (v : GoValue) :
    Inventory × Option Item :=
  if inv.Items.isEmpty then (inv, none)
  else
    ((⟨(changeItemList inv.Items name fields v).1⟩ : Inventory),
     (changeItemList inv.Items name fields v).2)

/-- Modelled from the spec's field table for `changeItem` (name→text,
quantity→integer, condition→Condition, description→text,
abilities→Abilities-or-absent): apply the value when its runtime type matches
the field's expected type, silently skip the field otherwise. -/
def specApplyField (item : Item) (field : String) (v : GoValue) : Item :=
  match field, v with
  | "name", .vString s => { item with Name := s }
  | "quantity", .vInt n => { item with quantity := n }
  | "condition", .vCondition c => { item with condition := c }
  | "description", .vString s => { item with description := s }
  | "abilities", .vAbilitiesPtr a => { item with abilities := a }
  | _, _ => item

/-- On recognized fields the code's switch arm agrees with the spec's
type-matching table. -/
theorem applyField_known (item : Item) (field : String) (v : GoValue)
    (h : field ∈ knownItemFields) :
    applyField item field v = some (specApplyField item field v) := by
  simp only [knownItemFields, List.mem_cons, List.not_mem_nil, or_false] at h
  rcases h with rfl | rfl | rfl | rfl | rfl <;> cases v <;> rfl

/-- On unrecognized fields the switch falls to its aborting default branch. -/
theorem applyField_unknown (item : Item) (field : String) (v : GoValue)
    (h : field ∉ knownItemFields) : applyField item field v = none := by
  simp only [knownItemFields, List.mem_cons, List.not_mem_nil, or_false] at h
  push_neg at h
  obtain ⟨h1, h2, h3, h4, h5⟩ := h
  unfold applyField
  split <;> simp_all

/-- With only recognized fields the loop completes and computes the spec-side
fold. -/
theorem changeItemLoop_known (item : Item) (fields : List String) (v : GoValue)
    (h : ∀ f ∈ fields, f ∈ knownItemFields) :
    changeItemLoop item fields v =
      (fields.foldl (fun acc f => specApplyField acc f v) item, true) := by
  induction fields generalizing item with
  | nil => rfl
  | cons f fs ih =>
    have hf := h f (List.mem_cons_self f fs)
    simp only [changeItemLoop, applyField_known item f v hf, List.foldl_cons]
    exact ih (specApplyField item f v) fun g hg => h g (List.mem_cons_of_mem f hg)

/-- A field list containing an unrecognized name makes the loop abort. -/
theorem changeItemLoop_aborts (item : Item) (fields : List String) (v : GoValue)
    (h : ∃ f ∈ fields, f ∉ knownItemFields) :
    (changeItemLoop item fields v).2 = false := by
  induction fields generalizing item with
  | nil => simp at h
  | cons f fs ih =>
    by_cases hf : f ∈ knownItemFields
    · obtain ⟨g, hg, hgk⟩ := h
      rcases List.mem_cons.mp hg with rfl | hg2
      · exact absurd hf hgk
      · simp only [changeItemLoop, applyField_known item f v hf]
        exact ih (specApplyField item f v) ⟨g, hg2, hgk⟩
    · simp only [changeItemLoop, applyField_unknown item f v hf]

/-- `changeItemList` at the first entry carrying the name. -/
theorem changeItemList_found (l1 : List Item) (it : Item) (l2 : List Item)
    (name : String) (fields : List String) (v : GoValue)
    (hl1 : ∀ x ∈ l1, x.Name ≠ name) (hn : it.Name = name) :
    changeItemList (l1 ++ it :: l2) name fields v =
      (l1 ++ (changeItemLoop it fields v).1 :: l2,
       if (changeItemLoop it fields v).2 then some (changeItemLoop it fields v).1
       else none) := by
  induction l1 with
  | nil =>
    simp only [List.nil_append, changeItemList]
    rw [if_pos hn]
  | cons x rest ih =>
    have hx : x.Name ≠ name := hl1 x (List.mem_cons_self x rest)
    have hrest := ih fun y hy => hl1 y (List.mem_cons_of_mem x hy)
    simp only [List.cons_append, changeItemList, List.append_eq]
    rw [if_neg hx, hrest]

/-- C7: on an inventory containing the name, `ChangeItem` with only recognized
fields applies the value exactly per the spec's type-matching table (mismatched
types silently skipped) and returns the updated item; any unrecognized field
name in the list makes the call return nil. -/
theorem ChangeItem_spec (inv : Inventory) (name : String) (fields : List String)
    (v : GoValue) (l1 : List Item) (it : Item) (l2 : List Item)
    (heq : inv.Items = l1 ++ it :: l2) (hl1 : ∀ x ∈ l1, x.Name ≠ name)
    (hn : it.Name = name) :
    ((∀ f ∈ fields, f ∈ knownItemFields) →
      ChangeItem inv name fields v =
        (⟨l1 ++ (fields.foldl (fun acc f => specApplyField acc f v) it) :: l2⟩,
         some (fields.foldl (fun acc f => specApplyField acc f v) it))) ∧
    ((∃ f ∈ fields, f ∉ knownItemFields) →
      (ChangeItem inv name fields v).2 = none) := by
  have hne : (l1 ++ it :: l2).isEmpty = false := by
    cases l1 <;> rfl
  have hfound := changeItemList_found l1 it l2 name fields v hl1 hn
  constructor
  · intro hall
    simp only [ChangeItem, hne, Bool.false_eq_true, if_false, heq, hfound,
      changeItemLoop_known it fields v hall, if_pos]
  · intro hsome
    simp only [ChangeItem, hne, Bool.false_eq_true, if_false, heq, hfound,
      changeItemLoop_aborts it fields v hsome, if_neg]

/-- C7 witness: renaming the only "Sword" goes through the spec-side fold; a
field list with the bogus field "bogus" returns nil. -/
theorem ChangeItem_spec_witness :
    (ChangeItem (Inventory.mk [Item.mk "Sword" 1 none (NewCondition "New") ""])
        "Sword" ["name"] (GoValue.vString "Blade") =
      (⟨[] ++ (["name"].foldl
          (fun acc f => specApplyField acc f (GoValue.vString "Blade"))
          (Item.mk "Sword" 1 none (NewCondition "New") "")) :: []⟩,
       some (["name"].foldl
          (fun acc f => specApplyField acc f (GoValue.vString "Blade"))
          (Item.mk "Sword" 1 none (NewCondition "New") "")))) ∧
    (ChangeItem (Inventory.mk [Item.mk "Sword" 1 none (NewCondition "New") ""])
        "Sword" ["bogus"] (GoValue.vString "Blade")).2 = none := by
  constructor
  · exact (ChangeItem_spec (Inventory.mk [Item.mk "Sword" 1 none (NewCondition "New") ""])
      "Sword" ["name"] (GoValue.vString "Blade") []
      (Item.mk "Sword" 1 none (NewCondition "New") "") [] rfl (by simp) rfl).1
      (by decide)
  · exact (ChangeItem_spec (Inventory.mk [Item.mk "Sword" 1 none (NewCondition "New") ""])
      "Sword" ["bogus"] (GoValue.vString "Blade") []
      (Item.mk "Sword" 1 none (NewCondition "New") "") [] rfl (by simp) rfl).2
      (by decide)

/-! ## Package `character` -/

/-- The `GetIntelligence()` accessor. -/
def Abilities.GetIntelligence (a : Abilities) : Int := a.intelligence

/-- `Character`; the Go field `class` is a Lean keyword and is modelled as
`className`. -/
structure Character where
  race       : String
  name       : String
  className  : String
  abilities  : Abilities
  inventory  : Inventory
  condition  : Condition
  manaPoints : Int
deriving DecidableEq, Repr

/-- `NewCharacter`: a total constructor (the Go function has no error return),
deriving `manaPoints` from the abilities' intelligence. -/
def NewCharacter (race name className : String) (abs : Abilities) (inv : Inventory)
    (cond : Condition) : Character where
  race := race
  name := name
  className := className
  abilities := abs
  inventory := inv
  condition := cond
  manaPoints := abs.GetIntelligence * 50

/-- `SetName`: no-op (with a log line) on the empty string. -/
def SetName (c : Character) (newName : String) : Character :=
  if newName ≠ "" then { c with name := newName } else c

/-- `SetClass`: no-op (with a log line) on the empty string. -/
def SetClass (c : Character) (newClass : String) : Character :=
  if newClass ≠ "" then { c with className := newClass } else c

/-- `SetCondition`: no-op (with a log line) when the condition's string form is
empty. -/
def SetCondition (c : Character) (newCondition : Condition) : Character :=
  if newCondition.toStr ≠ "" then { c with condition := newCondition } else c

/-- C8: each of the three setters, given the empty replacement value, returns
with the character — every field — unchanged; the Go methods only log in that
branch and cannot fail. -/
theorem setters_empty_noop (c : Character) :
    SetName c "" = c ∧ SetClass c "" = c ∧ SetCondition c (NewCondition "") = c := by
  refine ⟨?_, ?_, ?_⟩ <;>
    simp [SetName, SetClass, SetCondition, NewCondition, Condition.toStr]

/-- C9: `NewCharacter` is total — it succeeds on every input — and the stored
`manaPoints` is the abilities' intelligence times 50; at the spec's end-to-end
example (intelligence 8) that is 400. -/
theorem NewCharacter_manaPoints (race name className : String) (abs : Abilities)
    (inv : Inventory) (cond : Condition) :
    (NewCharacter race name className abs inv cond).manaPoints =
        abs.GetIntelligence * 50 ∧
    (NewCharacter "Human" "Hero" "Mage" (Abilities.mk 0 7 5 5 5 5 8) NewInventory
        (NewCondition "Healthy")).manaPoints = 400 :=
  ⟨rfl, rfl⟩

end DmHelper
